import Mathlib

/-!
Verification of the core algorithms of the SCR (Scalable Checkpoint/Restart)
library, shallowly embedded from `src/scr.c`.  Machine integers (`int`,
`size_t`, `unsigned long`) are modelled as `Int`/`Nat`; where unsigned
wrap-around could occur it is made explicit with `% 2^64`.  MPI collectives
over a communicator are modelled as pure functions over the list of the
per-process contributions.
-/

namespace SCR

/-! ## scr_set_partners (src/scr.c:274)

The C code shifts the hop distance into a valid range with two `while` loops

  while (dist > ranks) { dist -= ranks; }
  while (dist < 0)     { dist += ranks; }

and then computes

  lhs = (my_rank + ranks - dist) % ranks;
  rhs = (my_rank + ranks + dist) % ranks;

`ranks` is an MPI communicator size, hence at least 1.  The guards carry the
`0 < ranks` condition solely so that the recursions are total; with
`ranks = 0` the C loops would not terminate either. -/

/-- First loop of `scr_set_partners`: `while (dist > ranks) dist -= ranks`. -/
def shift_dist_down (ranks : Nat) (dist : Int) : Int :=
  if h : 0 < ranks ∧ (ranks : Int) < dist then
    shift_dist_down ranks (dist - ranks)
  else
    dist
termination_by dist.toNat
decreasing_by omega

/-- Second loop of `scr_set_partners`: `while (dist < 0) dist += ranks`. -/
def shift_dist_up (ranks : Nat) (dist : Int) : Int :=
  if h : 0 < ranks ∧ dist < 0 then
    shift_dist_up ranks (dist + ranks)
  else
    dist
termination_by (-dist).toNat
decreasing_by omega

/-- The hop distance after both shift loops of `scr_set_partners`. -/
def scr_set_partners_dist (ranks : Nat) (dist : Int) : Int :=
  shift_dist_up ranks (shift_dist_down ranks dist)

/-- Rank of the left partner computed by `scr_set_partners`:
`lhs = (my_rank + ranks - dist) % ranks` with C truncated `%`. -/
def scr_set_partners_lhs (ranks my_rank : Nat) (dist : Int) : Int :=
  Int.tmod ((my_rank : Int) + ranks - scr_set_partners_dist ranks dist) ranks

/-- Rank of the right partner computed by `scr_set_partners`:
`rhs = (my_rank + ranks + dist) % ranks` with C truncated `%`. -/
def scr_set_partners_rhs (ranks my_rank : Nat) (dist : Int) : Int :=
  Int.tmod ((my_rank : Int) + ranks + scr_set_partners_dist ranks dist) ranks

/-! ## Checkpoint descriptors and scr_ckptdesc_get (src/scr.c:418)

`struct scr_ckptdesc` is modelled with the fields the verified claims need.
`enabled` is an `int` used as a boolean in C; `interval` comes from `atoi`
of a configuration value and defaults to 1. -/

structure scr_ckptdesc where
  enabled : Bool
  index : Int
  interval : Int
  base : String
  directory : String
  deriving DecidableEq, Repr

/-- Loop of `scr_ckptdesc_get`: iterate over the descriptor array keeping the
current candidate `c` and its `interval` (initially `NULL` and `0`).  A
descriptor is taken when it is enabled, its interval beats the current one,
and `checkpoint_id % interval == 0` (C truncated `%`, reached only when
`interval > 0` thanks to the short-circuit order of the `&&`). -/
def scr_ckptdesc_get_loop (checkpoint_id : Int) (c : Option scr_ckptdesc)
    (interval : Int) : List scr_ckptdesc → Option scr_ckptdesc
  | [] => c
  | k :: rest =>
    if k.enabled ∧ interval < k.interval ∧ Int.tmod checkpoint_id k.interval = 0 then
      scr_ckptdesc_get_loop checkpoint_id (some k) k.interval rest
    else
      scr_ckptdesc_get_loop checkpoint_id c interval rest

/-- Translation of `scr_ckptdesc_get`: select the descriptor for a checkpoint
id from the descriptor array. -/
def scr_ckptdesc_get (checkpoint_id : Int) (ckpts : List scr_ckptdesc) :
    Option scr_ckptdesc :=
  scr_ckptdesc_get_loop checkpoint_id none 0 ckpts

/-- Statement of the spec for descriptor selection, written from the spec
words for the refinement proof of C4: among enabled descriptors whose
interval divides the id, the one with the largest interval wins, ties broken
in favour of the earlier (leftmost) descriptor. -/
def scr_ckptdesc_get_spec (checkpoint_id : Int) :
    List scr_ckptdesc → Option scr_ckptdesc
  | [] => none
  | k :: rest =>
    let r := scr_ckptdesc_get_spec checkpoint_id rest
    if k.enabled ∧ k.interval ∣ checkpoint_id then
      match r with
      | none => some k
      | some m => if m.interval ≤ k.interval then some k else some m
    else r

/-! ## The per-file metadata sidecar and scr_bool_have_file (src/scr.c:1113)

The sidecar record (`scr_meta`) and its accessors live in `scr_meta.c`,
which is an external collaborator of this translation unit.  Modelled from
the spec: the sidecar stores `{filename, filetype ∈ {FULL, XOR}, filesize,
checkpoint_id, rank, ranks_total, complete}`; each `scr_meta_get_*` accessor
returns `SCR_SUCCESS` and the stored field exactly when the field is
present, and `scr_meta_is_complete` succeeds exactly when the stored
`complete` flag is true.  An absent field is `none`. -/

inductive scr_filetype where
  | FULL
  | XOR
  deriving DecidableEq, Repr

structure scr_meta where
  filename : Option String
  filetype : Option scr_filetype
  filesize : Option Nat
  checkpoint_id : Option Int
  rank : Option Int
  ranks : Option Int
  complete : Option Bool
  deriving DecidableEq, Repr

/-- View of one on-disk file as `scr_bool_have_file` observes it:
whether `access(file, R_OK)` succeeds, the measured size `scr_filesize`,
and the sidecar record if `scr_meta_read` can read one. -/
structure FileView where
  readable : Bool
  size : Nat
  meta : Option scr_meta
  deriving DecidableEq, Repr

/-- Translation of `scr_bool_have_file`: the "present and usable" check for
a cached file, following the C early-return chain line by line. -/
def scr_bool_have_file (file : String) (info : FileView)
    (ckpt rank ranks : Int) : Bool :=
  if file = "" then false
  else if ¬ info.readable then false
  else
    match info.meta with
    | none => false
    | some meta =>
      if ¬ (meta.complete = some true) then false
      else
        match meta.checkpoint_id with
        | none => false
        | some meta_ckpt =>
          if ckpt ≠ meta_ckpt then false
          else
            match meta.rank with
            | none => false
            | some meta_rank =>
              if rank ≠ meta_rank then false
              else
                match meta.ranks with
                | none => false
                | some meta_ranks =>
                  if ranks ≠ meta_ranks then false
                  else
                    match meta.filesize with
                    | none => false
                    | some meta_size => info.size = meta_size

/-! ## XOR encoder chunk size (src/scr.c:2037)

In `scr_copy_xor` each member sums the sizes of its checkpoint files into
`my_bytes` (an `unsigned long`), the group all-reduces the `MAX`, and the
chunk size is computed as

  size_t chunk_size = max_bytes / (unsigned long)(c->ranks - 1);
  if ((c->ranks - 1) * chunk_size < max_bytes) chunk_size++;
  if (chunk_size == 0) chunk_size++;

Unsigned 64-bit arithmetic is modelled with explicit `% 2^64`. -/

/-- Per-member byte total `my_bytes`: sum of the member's file sizes in
`unsigned long` arithmetic. -/
def scr_copy_xor_my_bytes (filesizes : List Nat) : Nat :=
  filesizes.foldl (fun a b => (a + b) % 2 ^ 64) 0

/-- `MPI_Allreduce(..., MPI_MAX, ...)` over the members' byte totals; every
contribution is a nonnegative `unsigned long`. -/
def allreduce_max (xs : List Nat) : Nat := xs.foldl max 0

/-- Translation of the chunk-size computation of `scr_copy_xor` for a group
of `ranks` members. -/
def scr_copy_xor_chunk_size (max_bytes ranks : Nat) : Nat :=
  let chunk1 := max_bytes / (ranks - 1)
  let chunk2 := if (ranks - 1) * chunk1 % 2 ^ 64 < max_bytes then chunk1 + 1 else chunk1
  if chunk2 = 0 then chunk2 + 1 else chunk2

/-! ## Rebuild detection in scr_attempt_rebuild_xor (src/scr.c:5292)

Each group member checks `have_my_files` (all checkpoint files present and
usable, and the XOR artifact present), sets `need_rebuild = !have_my_files`,
and the group all-reduces the SUM.  The group is modelled as the list of the
members' `have_my_files` flags indexed by rank in the group; the world-wide
`scr_alltrue(set_can_rebuild)` is the conjunction of this group's flag with
the other groups' flags, the latter summarised as `other_sets_ok`. -/

/-- Per-member `need_rebuild` value: `1` when files are missing. -/
def need_rebuild (have_my_files : Bool) : Nat :=
  if have_my_files then 0 else 1

/-- Group `MPI_Allreduce(..., MPI_SUM, ...)` of the `need_rebuild` flags. -/
def total_rebuild (haves : List Bool) : Nat :=
  (haves.map need_rebuild).sum

/-- Group `MPI_Allreduce(..., MPI_MAX, ...)` of `need_rebuild ? my_rank : -1`
over the members, the member at the head of the list having rank `idx`.
Every contribution is at least `-1`, so folding from `-1` is the MPI max. -/
def rebuild_rank_from (idx : Int) : List Bool → Int
  | [] => -1
  | b :: rest => max (if b then -1 else idx) (rebuild_rank_from (idx + 1) rest)

/-- Rank in the group of the member to rebuild (`rebuild_rank` in the C). -/
def rebuild_rank (haves : List Bool) : Int :=
  rebuild_rank_from 0 haves

/-- Outcome of the detection phase of `scr_attempt_rebuild_xor`: nothing to
do, rebuild rooted at a group rank, or surface `SCR_FAILURE`. -/
inductive RebuildAction where
  | nothing
  | rebuild (root : Int)
  | fail
  deriving DecidableEq, Repr

/-- Translation of the detection phase of `scr_attempt_rebuild_xor` as seen
by one group: all-reduce the SUM of `need_rebuild`, all-reduce
`set_can_rebuild = (total_rebuild <= 1)` across the world, bail out with
failure if that is false anywhere, otherwise rebuild at the MAX-selected
rank when the sum is nonzero. -/
def scr_attempt_rebuild_xor (haves : List Bool) (other_sets_ok : Bool) :
    RebuildAction :=
  let total := total_rebuild haves
  let set_can_rebuild := total ≤ 1
  if ¬ (set_can_rebuild ∧ other_sets_ok) then .fail
  else if 0 < total then .rebuild (rebuild_rank haves)
  else .nothing

/-! ## Partner validity in scr_ckptdesc_create_from_hash (src/scr.c:678)

After `scr_set_partners` has exchanged hostnames, a PARTNER or XOR
descriptor is disabled when either partner hostname is empty or equal to the
process's own hostname, and a final `scr_alltrue(c->enabled)` disables the
descriptor everywhere when any process disabled it.  One process's
descriptor state entering that code is modelled by `ProcCkptdesc`; the
world is the list of all processes' descriptors. -/

inductive scr_copy_type where
  | LOCAL
  | PARTNER
  | XOR
  | NULL
  deriving DecidableEq, Repr

structure ProcCkptdesc where
  enabled : Bool
  copy_type : scr_copy_type
  my_hostname : String
  lhs_hostname : String
  rhs_hostname : String
  deriving DecidableEq, Repr

/-- Translation of the partner validity check: for PARTNER and XOR
descriptors, disable when a partner hostname is empty or matches our own. -/
def scr_ckptdesc_partner_check (p : ProcCkptdesc) : ProcCkptdesc :=
  if (p.copy_type = .PARTNER ∨ p.copy_type = .XOR) ∧
      (p.lhs_hostname = "" ∨ p.rhs_hostname = "" ∨
       p.lhs_hostname = p.my_hostname ∨ p.rhs_hostname = p.my_hostname) then
    { p with enabled := false }
  else
    p

/-- Translation of `if (!scr_alltrue(c->enabled)) c->enabled = 0;` over the
world: every process keeps its flag when all are enabled and clears it
otherwise. -/
def scr_ckptdesc_enabled_allreduce (ps : List ProcCkptdesc) : List ProcCkptdesc :=
  let all_enabled := ps.all (fun p => p.enabled)
  ps.map (fun p => if all_enabled then p else { p with enabled := false })

/-- The tail of `scr_ckptdesc_create_from_hash` for a descriptor whose
`copy_type` was parsed from the hash: partner validity check on every
process, then the concluding all-reduce on `enabled`. -/
def scr_ckptdesc_finalize (ps : List ProcCkptdesc) : List ProcCkptdesc :=
  scr_ckptdesc_enabled_allreduce (ps.map scr_ckptdesc_partner_check)

/-! ## Cache eviction in SCR_Start_checkpoint (src/scr.c:7310)

`scr_filemap_list_checkpoints` (external, `scr_filemap.c`) yields the cached
checkpoint ids; modelled from the spec, the list is ordered ascending by id.
For each id the base of its descriptor recorded in the filemap may be absent
(`scr_ckptdesc_base_from_filemap` returning NULL). -/

structure CachedCkpt where
  id : Int
  base : Option String
  flushing : Bool
  deriving DecidableEq, Repr

/-- Eviction loop of `SCR_Start_checkpoint`: walk the cached checkpoints
while `nckpts_base >= size`, deleting non-flushing checkpoints of this base
and remembering the first flushing one.  Returns the deleted ids in
deletion order, the final `nckpts_base`, and the `flushing` candidate
(`none` standing for the C sentinel `-1`). -/
def evict_loop (cbase : String) (size : Int) :
    List CachedCkpt → Int → Option Int → List Int × Int × Option Int
  | [], n, fl => ([], n, fl)
  | k :: rest, n, fl =>
    if n < size then ([], n, fl)
    else
      match k.base with
      | none => evict_loop cbase size rest n fl
      | some b =>
        if b = cbase then
          if k.flushing = false then
            let r := evict_loop cbase size rest (n - 1) fl
            (k.id :: r.1, r.2.1, r.2.2)
          else
            match fl with
            | none => evict_loop cbase size rest n (some k.id)
            | some f => evict_loop cbase size rest n (some f)
        else
          evict_loop cbase size rest n fl

/-- Number of cached checkpoints whose recorded base is `cbase`
(the first counting loop of `SCR_Start_checkpoint`). -/
def count_base (cbase : String) (ckpts : List CachedCkpt) : Int :=
  ((ckpts.filter (fun k => k.base = some cbase)).length : Int)

/-- Translation of the eviction phase of `SCR_Start_checkpoint`: the loop
above followed by `if (nckpts_base >= size && flushing != -1)` wait for the
flush and delete the remembered flushing checkpoint.  Returns the ids
deleted in order and whether the flush wait happened. -/
def scr_start_checkpoint_evict (cbase : String) (size : Int)
    (ckpts : List CachedCkpt) : List Int × Bool :=
  let n0 := count_base cbase ckpts
  let r := evict_loop cbase size ckpts n0 none
  match r.2.2 with
  | some f => if size ≤ r.2.1 then (r.1 ++ [f], true) else (r.1, false)
  | none => (r.1, false)

/-- Ids of the non-flushing cached checkpoints at `cbase`, in list order. -/
def nonflushing_base_ids (cbase : String) (ckpts : List CachedCkpt) : List Int :=
  (ckpts.filter (fun k => k.base = some cbase ∧ k.flushing = false)).map (fun k => k.id)

/-- Ids of the flushing cached checkpoints at `cbase`, in list order. -/
def flushing_base_ids (cbase : String) (ckpts : List CachedCkpt) : List Int :=
  (ckpts.filter (fun k => k.base = some cbase ∧ k.flushing = true)).map (fun k => k.id)

/-- The oldest (minimum-id) flushing cached checkpoint at `cbase`. -/
def oldest_flushing (cbase : String) (ckpts : List CachedCkpt) : Option Int :=
  match flushing_base_ids cbase ckpts with
  | [] => none
  | x :: xs => some (xs.foldl min x)

/-- Statement of the spec for the eviction phase, written from the spec
words for the refinement proof of C5: while the count of checkpoints at this
base is at least the capacity, evict in ascending id order skipping
FLUSHING checkpoints; if still at capacity afterwards and a flushing
checkpoint at this base exists, wait on the oldest one and evict it. -/
def scr_start_checkpoint_evict_spec (cbase : String) (size : Int)
    (ckpts : List CachedCkpt) : List Int × Bool :=
  let n0 := count_base cbase ckpts
  let evicted := (nonflushing_base_ids cbase ckpts).take (n0 + 1 - size).toNat
  let remaining := n0 - evicted.length
  match oldest_flushing cbase ckpts with
  | some f => if size ≤ remaining then (evicted ++ [f], true) else (evicted, false)
  | none => (evicted, false)

/-! ## The API state machine (src/scr.c:7264, 7392, 7442)

Module-scope state of scr.c relevant to the entry points.  `scr_abort`
prints and calls `MPI_Abort`, which terminates the job and does not return;
a guard that calls it therefore ends the call with outcome `aborted`, and
any `return SCR_FAILURE` placed after `scr_abort` is unreachable.  `crash`
stands for undefined behaviour (dereference of a NULL descriptor). -/

inductive APIResult where
  | success
  | failure
  | aborted
  | crash
  deriving DecidableEq, Repr

structure SCRState where
  enabled : Bool
  initialized : Bool
  in_checkpoint : Bool
  checkpoint_id : Int
  my_rank_world : Int
  ckptdescs : List scr_ckptdesc
  filemap : List (Int × Int × String)
  filemap_disk : List (Int × Int × String)
  readable : List String
  deriving DecidableEq, Repr

/-- Translation of `scr_checkpoint_dir`:
`sprintf(dir, "%s/checkpoint.%d", c->directory, checkpoint_id)`. -/
def scr_checkpoint_dir (c : scr_ckptdesc) (checkpoint_id : Int) : String :=
  c.directory ++ "/checkpoint." ++ toString checkpoint_id

/-- Modelled from the spec: `scr_split_path` (external, `scr_io.c`) splits a
path into directory and base name; only the base name is used by
`scr_route_file`.  The base name is the suffix after the last slash,
computed over the character list. -/
def path_basename (file : String) : String :=
  String.mk ((file.data.reverse.takeWhile (fun c => c ≠ '/')).reverse)

/-- Result of `scr_route_file`: the routed path, `SCR_FAILURE`, or an
abort. -/
inductive RouteResult where
  | ok (newfile : String)
  | fail
  | aborted
  deriving DecidableEq, Repr

/-- Translation of `scr_route_file` (src/scr.c:6080): reject a NULL or empty
name, look up the descriptor for the checkpoint id, and compose
`<checkpoint dir>/<basename>`.  A NULL descriptor makes `scr_checkpoint_dir`
abort.  The C also aborts on names longer than `SCR_MAX_FILENAME`; that
bound lives in the external header `scr.h` and is not modelled. -/
def scr_route_file (checkpoint_id : Int) (ckpts : List scr_ckptdesc)
    (file : String) : RouteResult :=
  if file = "" then .fail
  else
    match scr_ckptdesc_get checkpoint_id ckpts with
    | none => .aborted
    | some c => .ok (scr_checkpoint_dir c checkpoint_id ++ "/" ++ path_basename file)

/-- Translation of `scr_filemap_add_file` at the call site of
`SCR_Route_file`; modelled from the spec: a file appears at most once per
`(checkpoint, rank)`, duplicates overwrite each other. -/
def scr_filemap_add_file (fm : List (Int × Int × String)) (ckpt rank : Int)
    (file : String) : List (Int × Int × String) :=
  if (ckpt, rank, file) ∈ fm then fm else fm ++ [(ckpt, rank, file)]

/-- Translation of `SCR_Route_file` (src/scr.c:7392): after the enabled and
initialized guards, route the file; inside a checkpoint add the routed path
to the filemap for `(scr_checkpoint_id, scr_my_rank_world)` and persist the
filemap, otherwise just test `access(newfile, R_OK)`.  Returns the API
result, the successor state, and the routed path handed back to the user. -/
def SCR_Route_file (s : SCRState) (file : String) :
    APIResult × SCRState × Option String :=
  if s.enabled = false then (.failure, s, none)
  else if s.initialized = false then (.aborted, s, none)
  else
    match scr_route_file s.checkpoint_id s.ckptdescs file with
    | .fail => (.failure, s, none)
    | .aborted => (.aborted, s, none)
    | .ok newfile =>
      if s.in_checkpoint then
        let fm := scr_filemap_add_file s.filemap s.checkpoint_id s.my_rank_world newfile
        (.success, { s with filemap := fm, filemap_disk := fm }, some newfile)
      else if newfile ∈ s.readable then (.success, s, some newfile)
      else (.failure, s, some newfile)

/-- Translation of the entry guards and descriptor lookup of
`SCR_Start_checkpoint` (src/scr.c:7264): fail when disabled, abort when not
initialized or when a checkpoint is already in progress; otherwise set
`scr_in_checkpoint`, increment `scr_checkpoint_id` and look the descriptor
up.  `scr_ckptdesc_get` may return NULL, and the code dereferences the
result (`scr_cachedesc_size(c->base)`) without a NULL check: that path is
undefined behaviour, modelled as `crash`.  The eviction work that follows on
the non-NULL path is modelled by `scr_start_checkpoint_evict`. -/
def SCR_Start_checkpoint (s : SCRState) : APIResult × SCRState :=
  if s.enabled = false then (.failure, s)
  else if s.initialized = false then (.aborted, s)
  else if s.in_checkpoint then (.aborted, s)
  else
    let s1 := { s with in_checkpoint := true, checkpoint_id := s.checkpoint_id + 1 }
    match scr_ckptdesc_get s1.checkpoint_id s1.ckptdescs with
    | none => (.crash, s1)
    | some _ => (.success, s1)

/-- Translation of the entry guards of `SCR_Complete_checkpoint`
(src/scr.c:7442): fail when disabled, abort when not initialized or when no
checkpoint is in progress; otherwise the body runs (sidecar writes, the
redundancy encoder whose success is abstracted as `copy_ok`, flush checks)
and `scr_in_checkpoint` is cleared before returning the encoder's result. -/
def SCR_Complete_checkpoint (s : SCRState) (copy_ok : Bool) : APIResult × SCRState :=
  if s.enabled = false then (.failure, s)
  else if s.initialized = false then (.aborted, s)
  else if s.in_checkpoint = false then (.aborted, s)
  else
    ((if copy_ok then .success else .failure),
     { s with in_checkpoint := false })

lemma shift_dist_down_le (ranks : Nat) (dist : Int) (h : 0 < ranks) :
    shift_dist_down ranks dist ≤ ranks := by
  induction dist using shift_dist_down.induct ranks with
  | case1 d hd ih =>
    rw [shift_dist_down, dif_pos hd]
    exact ih
  | case2 d hd =>
    rw [shift_dist_down, dif_neg hd]
    push_neg at hd
    exact hd h

lemma shift_dist_down_emod (ranks : Nat) (dist : Int) :
    shift_dist_down ranks dist % ranks = dist % ranks := by
  induction dist using shift_dist_down.induct ranks with
  | case1 d hd ih =>
    rw [shift_dist_down, dif_pos hd, ih, Int.sub_emod, Int.emod_self, sub_zero,
      Int.emod_emod_of_dvd _ dvd_rfl]
  | case2 d hd =>
    rw [shift_dist_down, dif_neg hd]

lemma shift_dist_up_nonneg (ranks : Nat) (dist : Int) (h : 0 < ranks) :
    0 ≤ shift_dist_up ranks dist := by
  induction dist using shift_dist_up.induct ranks with
  | case1 d hd ih =>
    rw [shift_dist_up, dif_pos hd]
    exact ih
  | case2 d hd =>
    rw [shift_dist_up, dif_neg hd]
    push_neg at hd
    exact hd h

lemma shift_dist_up_le (ranks : Nat) (dist : Int) (h : 0 < ranks)
    (hle : dist ≤ ranks) : shift_dist_up ranks dist ≤ ranks := by
  induction dist using shift_dist_up.induct ranks with
  | case1 d hd ih =>
    rw [shift_dist_up, dif_pos hd]
    exact ih (by omega)
  | case2 d hd =>
    rw [shift_dist_up, dif_neg hd]
    exact hle

lemma shift_dist_up_emod (ranks : Nat) (dist : Int) :
    shift_dist_up ranks dist % ranks = dist % ranks := by
  induction dist using shift_dist_up.induct ranks with
  | case1 d hd ih =>
    rw [shift_dist_up, dif_pos hd, ih, Int.add_emod, Int.emod_self, add_zero,
      Int.emod_emod_of_dvd _ dvd_rfl]
  | case2 d hd =>
    rw [shift_dist_up, dif_neg hd]

lemma scr_set_partners_dist_nonneg (ranks : Nat) (dist : Int) (h : 0 < ranks) :
    0 ≤ scr_set_partners_dist ranks dist :=
  shift_dist_up_nonneg ranks _ h

lemma scr_set_partners_dist_le (ranks : Nat) (dist : Int) (h : 0 < ranks) :
    scr_set_partners_dist ranks dist ≤ ranks :=
  shift_dist_up_le ranks _ h (shift_dist_down_le ranks dist h)

lemma scr_set_partners_dist_emod (ranks : Nat) (dist : Int) :
    scr_set_partners_dist ranks dist % ranks = dist % ranks := by
  rw [scr_set_partners_dist, shift_dist_up_emod, shift_dist_down_emod]

/-- C7: in `scr_set_partners`, for every communicator size `ranks ≥ 1`, every
rank and every hop distance `dist : Int` (including `dist ≥ ranks` and
`dist ≤ 0`), the computed left partner rank is `(my_rank - dist) mod ranks`
and the right partner rank is `(my_rank + dist) mod ranks`, the mod taken
into the range `[0, ranks)`. -/
theorem scr_set_partners_partner_ranks (ranks my_rank : Nat) (dist : Int)
    (h : 1 ≤ ranks) :
    scr_set_partners_lhs ranks my_rank dist = ((my_rank : Int) - dist) % ranks ∧
    scr_set_partners_rhs ranks my_rank dist = ((my_rank : Int) + dist) % ranks := by
  have h0 : 0 < ranks := h
  have hnn := scr_set_partners_dist_nonneg ranks dist h0
  have hle := scr_set_partners_dist_le ranks dist h0
  have hmod := scr_set_partners_dist_emod ranks dist
  constructor
  · rw [scr_set_partners_lhs,
      Int.tmod_eq_emod (by omega) (by positivity),
      Int.sub_emod, hmod, ← Int.sub_emod,
      show ((my_rank : Int) + ranks - dist) = ((my_rank : Int) - dist) + ranks from by
        ring, Int.add_emod, Int.emod_self, add_zero,
      Int.emod_emod_of_dvd _ dvd_rfl]
  · rw [scr_set_partners_rhs,
      Int.tmod_eq_emod (by omega) (by positivity),
      Int.add_emod, hmod, ← Int.add_emod,
      show ((my_rank : Int) + ranks + dist) = ((my_rank : Int) + dist) + ranks from by
        ring, Int.add_emod, Int.emod_self, add_zero,
      Int.emod_emod_of_dvd _ dvd_rfl]

/-- Witness for C7 at `ranks = 4`, `my_rank = 2`, `dist = -5`: the left
partner is `(2 - (-5)) mod 4 = 3` and the right partner is
`(2 + (-5)) mod 4 = 1`. -/
theorem scr_set_partners_partner_ranks_witness :
    scr_set_partners_lhs 4 2 (-5) = 3 ∧ scr_set_partners_rhs 4 2 (-5) = 1 := by
  have h := scr_set_partners_partner_ranks 4 2 (-5) (by decide)
  rw [h.1, h.2]
  decide


lemma foldl_max_lt (c : Nat) : ∀ (xs : List Nat) (a : Nat), a < c →
    (∀ b ∈ xs, b < c) → xs.foldl max a < c := by
  intro xs
  induction xs with
  | nil => intro a ha _; simpa using ha
  | cons x xs ih =>
    intro a ha hb
    simp only [List.foldl_cons]
    exact ih (max a x) (by
      have := hb x (by simp)
      omega) (fun b hbmem => hb b (by simp [hbmem]))

lemma scr_copy_xor_chunk_size_def (M ranks : Nat) :
    scr_copy_xor_chunk_size M ranks =
      (if (if (ranks - 1) * (M / (ranks - 1)) % 2 ^ 64 < M
            then M / (ranks - 1) + 1 else M / (ranks - 1)) = 0
       then (if (ranks - 1) * (M / (ranks - 1)) % 2 ^ 64 < M
            then M / (ranks - 1) + 1 else M / (ranks - 1)) + 1
       else (if (ranks - 1) * (M / (ranks - 1)) % 2 ^ 64 < M
            then M / (ranks - 1) + 1 else M / (ranks - 1))) := rfl

lemma chunk_size_aux (M d : Nat) (hd0 : 0 < d) (hM : M < 2 ^ 64) :
    (if (if d * (M / d) % 2 ^ 64 < M then M / d + 1 else M / d) = 0
       then (if d * (M / d) % 2 ^ 64 < M then M / d + 1 else M / d) + 1
       else (if d * (M / d) % 2 ^ 64 < M then M / d + 1 else M / d)) =
      max 1 ((M + d - 1) / d) := by
  have hq := Nat.div_add_mod M d
  have hmod_lt : M % d < d := Nat.mod_lt _ hd0
  have hid : d * (M / d) % 2 ^ 64 = d * (M / d) := Nat.mod_eq_of_lt (by omega)
  have hceil : (M + d - 1) / d = if M % d = 0 then M / d else M / d + 1 := by
    rcases Nat.eq_zero_or_pos (M % d) with h0 | hpos
    · have hsplit : M + d - 1 = d * (M / d) + (d - 1) := by omega
      rw [if_pos h0, hsplit, Nat.mul_add_div hd0,
        Nat.div_eq_of_lt (show d - 1 < d by omega)]
      omega
    · have hsplit : M + d - 1 = d * (M / d) + (M % d - 1 + d) := by omega
      rw [if_neg (by omega), hsplit, Nat.mul_add_div hd0,
        Nat.add_div_right _ hd0, Nat.div_eq_of_lt (show M % d - 1 < d by omega)]
  rw [hid, hceil]
  by_cases hlt : d * (M / d) < M
  · have hne : ¬ M % d = 0 := by omega
    rw [if_neg hne, if_pos hlt, if_neg (Nat.succ_ne_zero (M / d))]
    exact (max_eq_right (Nat.le_add_left 1 (M / d))).symm
  · have h0 : M % d = 0 := by omega
    rw [if_pos h0, if_neg hlt]
    by_cases hz : M / d = 0
    · rw [if_pos hz, hz]
      simp
    · rw [if_neg hz]
      exact (max_eq_right (Nat.one_le_iff_ne_zero.mpr hz)).symm

lemma scr_copy_xor_chunk_size_eq (M ranks : Nat) (h2 : 2 ≤ ranks)
    (hM : M < 2 ^ 64) :
    scr_copy_xor_chunk_size M ranks =
      max 1 ((M + (ranks - 1) - 1) / (ranks - 1)) := by
  rw [scr_copy_xor_chunk_size_def]
  exact chunk_size_aux M (ranks - 1) (by omega) hM

/-- C2: for every XOR group of `group_size ≥ 2` and every combination of
per-member byte totals (each an `unsigned long`, hence below `2^64`), the
chunk size computed by `scr_copy_xor` equals
`⌈max_bytes / (group_size - 1)⌉` where `max_bytes` is the all-reduced MAX of
the members' totals, except that it is at least 1, so a group of all
zero-byte files yields chunk size 1. -/
theorem scr_copy_xor_chunk_size_is_ceiling (bytes_by_member : List Nat)
    (ranks : Nat) (h2 : 2 ≤ ranks)
    (hbound : ∀ b ∈ bytes_by_member, b < 2 ^ 64) :
    scr_copy_xor_chunk_size (allreduce_max bytes_by_member) ranks =
      max 1 ((allreduce_max bytes_by_member + (ranks - 1) - 1) / (ranks - 1)) := by
  have hmax : allreduce_max bytes_by_member < 2 ^ 64 :=
    foldl_max_lt (2 ^ 64) bytes_by_member 0 (by norm_num) hbound
  exact scr_copy_xor_chunk_size_eq _ ranks h2 hmax

/-- Witness for C2 with a group of four members all holding zero bytes: the
chunk size is 1. -/
theorem scr_copy_xor_chunk_size_is_ceiling_witness :
    scr_copy_xor_chunk_size (allreduce_max [0, 0, 0, 0]) 4 = 1 := by
  have h := scr_copy_xor_chunk_size_is_ceiling [0, 0, 0, 0] 4 (by norm_num)
    (by intro b hb; fin_cases hb <;> norm_num)
  simpa using h

lemma mem_map_partner_check {q : ProcCkptdesc} {ps : List ProcCkptdesc}
    (hq : q ∈ ps.map scr_ckptdesc_partner_check) :
    ∃ p ∈ ps, q = scr_ckptdesc_partner_check p := by
  obtain ⟨p, hp, hpq⟩ := List.mem_map.mp hq
  exact ⟨p, hp, hpq.symm⟩

lemma partner_check_cases (p : ProcCkptdesc) :
    (scr_ckptdesc_partner_check p).enabled = false ∨
    (scr_ckptdesc_partner_check p = p ∧
      ((p.copy_type = .PARTNER ∨ p.copy_type = .XOR) →
        p.lhs_hostname ≠ "" ∧ p.rhs_hostname ≠ "" ∧
        p.lhs_hostname ≠ p.my_hostname ∧ p.rhs_hostname ≠ p.my_hostname)) := by
  unfold scr_ckptdesc_partner_check
  by_cases h : (p.copy_type = .PARTNER ∨ p.copy_type = .XOR) ∧
      (p.lhs_hostname = "" ∨ p.rhs_hostname = "" ∨
       p.lhs_hostname = p.my_hostname ∨ p.rhs_hostname = p.my_hostname)
  · rw [if_pos h]
    exact Or.inl rfl
  · rw [if_neg h]
    push_neg at h
    exact Or.inr ⟨rfl, h⟩

lemma partner_check_preserves (p : ProcCkptdesc) :
    (scr_ckptdesc_partner_check p).copy_type = p.copy_type ∧
    (scr_ckptdesc_partner_check p).my_hostname = p.my_hostname ∧
    (scr_ckptdesc_partner_check p).lhs_hostname = p.lhs_hostname ∧
    (scr_ckptdesc_partner_check p).rhs_hostname = p.rhs_hostname := by
  unfold scr_ckptdesc_partner_check
  split <;> simp

lemma scr_ckptdesc_finalize_cases (ps : List ProcCkptdesc) :
    (∀ q ∈ scr_ckptdesc_finalize ps, q.enabled = false) ∨
    (scr_ckptdesc_finalize ps = ps.map scr_ckptdesc_partner_check ∧
     ∀ q ∈ scr_ckptdesc_finalize ps, q.enabled = true) := by
  unfold scr_ckptdesc_finalize scr_ckptdesc_enabled_allreduce
  by_cases hall : (ps.map scr_ckptdesc_partner_check).all (fun p => p.enabled) = true
  · right
    constructor
    · simp [hall]
    · intro q hq
      simp only [hall, if_true, List.map_id'] at hq
      rw [List.all_eq_true] at hall
      exact hall q hq
  · left
    intro q hq
    simp only [hall, if_false] at hq
    obtain ⟨p, _, rfl⟩ := List.mem_map.mp hq
    rfl

/-- C6: for every world of processes constructing a PARTNER or XOR
descriptor, after the partner validity check each process either has both
partner hostnames non-empty and different from its own hostname or has its
descriptor disabled; after the concluding all-reduce on `enabled` the
descriptor is enabled on every process or on none; consequently every
process of an enabled non-LOCAL (PARTNER or XOR) descriptor has partner
hostnames differing from its own. -/
theorem scr_ckptdesc_finalize_partner_validity (ps : List ProcCkptdesc) :
    (∀ q ∈ ps.map scr_ckptdesc_partner_check,
        (q.copy_type = .PARTNER ∨ q.copy_type = .XOR) →
        (q.lhs_hostname ≠ "" ∧ q.rhs_hostname ≠ "" ∧
         q.lhs_hostname ≠ q.my_hostname ∧ q.rhs_hostname ≠ q.my_hostname) ∨
        q.enabled = false) ∧
    (∀ q ∈ scr_ckptdesc_finalize ps, ∀ q' ∈ scr_ckptdesc_finalize ps,
        q.enabled = q'.enabled) ∧
    (∀ q ∈ scr_ckptdesc_finalize ps,
        q.enabled = true → (q.copy_type = .PARTNER ∨ q.copy_type = .XOR) →
        q.lhs_hostname ≠ "" ∧ q.rhs_hostname ≠ "" ∧
        q.lhs_hostname ≠ q.my_hostname ∧ q.rhs_hostname ≠ q.my_hostname) := by
  refine ⟨?_, ?_, ?_⟩
  · intro q hq htype
    obtain ⟨p, _, rfl⟩ := mem_map_partner_check hq
    rcases partner_check_cases p with h | ⟨heq, hvalid⟩
    · exact Or.inr h
    · left
      rw [heq] at htype ⊢
      exact hvalid htype
  · intro q hq q' hq'
    rcases scr_ckptdesc_finalize_cases ps with h | ⟨_, h⟩
    · rw [h q hq, h q' hq']
    · rw [h q hq, h q' hq']
  · intro q hq henq htype
    rcases scr_ckptdesc_finalize_cases ps with h | ⟨heq, _⟩
    · rw [h q hq] at henq
      cases henq
    · rw [heq] at hq
      obtain ⟨p, _, rfl⟩ := mem_map_partner_check hq
      rcases partner_check_cases p with h | ⟨hid, hvalid⟩
      · rw [h] at henq
        cases henq
      · rw [hid] at htype ⊢
        exact hvalid htype

lemma total_rebuild_cons (b : Bool) (l : List Bool) :
    total_rebuild (b :: l) = need_rebuild b + total_rebuild l := by
  simp [total_rebuild]

lemma total_rebuild_eq_zero_iff (l : List Bool) :
    total_rebuild l = 0 ↔ ∀ b ∈ l, b = true := by
  induction l with
  | nil => simp [total_rebuild]
  | cons b rest ih =>
    rw [total_rebuild_cons]
    cases b
    · rw [show need_rebuild false = 1 from rfl]
      constructor
      · intro h
        exact absurd h (by omega)
      · intro h
        exact absurd (h false (List.mem_cons_self _ _)) (by simp)
    · rw [show need_rebuild true = 0 from rfl, Nat.zero_add, ih]
      constructor
      · intro h x hx
        rcases List.mem_cons.mp hx with rfl | hx
        · rfl
        · exact h x hx
      · intro h x hx
        exact h x (List.mem_cons_of_mem _ hx)

lemma rebuild_rank_from_ge (l : List Bool) (idx : Int) :
    -1 ≤ rebuild_rank_from idx l := by
  induction l generalizing idx with
  | nil => simp [rebuild_rank_from]
  | cons b rest ih =>
    simp only [rebuild_rank_from, le_max_iff]
    exact Or.inr (ih (idx + 1))

lemma rebuild_rank_from_all_true (l : List Bool) (idx : Int)
    (h : ∀ b ∈ l, b = true) : rebuild_rank_from idx l = -1 := by
  induction l generalizing idx with
  | nil => rfl
  | cons b rest ih =>
    have hb : b = true := h b (List.mem_cons_self b rest)
    subst hb
    rw [show rebuild_rank_from idx (true :: rest) =
        max (-1) (rebuild_rank_from (idx + 1) rest) from rfl]
    rw [ih (idx + 1) fun x hx => h x (List.mem_cons_of_mem true hx)]
    simp

lemma rebuild_rank_from_unique (l : List Bool) :
    ∀ (idx : Int) (j : Nat) (hj : j < l.length), 0 ≤ idx →
      l.get ⟨j, hj⟩ = false → total_rebuild l = 1 →
      rebuild_rank_from idx l = idx + j := by
  induction l with
  | nil => intro idx j hj; cases hj
  | cons b rest ih =>
    intro idx j hj hidx hget htot
    rw [total_rebuild_cons] at htot
    cases j with
    | zero =>
      simp only [List.get] at hget
      subst hget
      have hrest : total_rebuild rest = 0 := by
        rw [show need_rebuild false = 1 from rfl] at htot
        omega
      have hall := (total_rebuild_eq_zero_iff rest).mp hrest
      rw [show rebuild_rank_from idx (false :: rest) =
          max idx (rebuild_rank_from (idx + 1) rest) from rfl]
      rw [rebuild_rank_from_all_true rest (idx + 1) hall]
      rw [max_eq_left (by omega)]
      simp
    | succ k =>
      simp only [List.get] at hget
      have hkmem : rest.get ⟨k, Nat.lt_of_succ_lt_succ hj⟩ ∈ rest :=
        rest.get_mem _ _
      have hksum : 1 ≤ total_rebuild rest := by
        by_contra hle
        have h0 : total_rebuild rest = 0 := by omega
        have hall := (total_rebuild_eq_zero_iff rest).mp h0
        have := hall _ hkmem
        rw [hget] at this
        cases this
      have hb : b = true := by
        cases hcase : b
        · subst hcase
          rw [show need_rebuild false = 1 from rfl] at htot
          omega
        · rfl
      subst hb
      have hrest_tot : total_rebuild rest = 1 := by
        rw [show need_rebuild true = 0 from rfl] at htot
        omega
      rw [show rebuild_rank_from idx (true :: rest) =
          max (-1) (rebuild_rank_from (idx + 1) rest) from rfl]
      rw [ih (idx + 1) k (Nat.lt_of_succ_lt_succ hj) (by omega) hget hrest_tot]
      rw [max_eq_right (by omega)]
      push_cast
      ring

/-- C1: in `scr_attempt_rebuild_xor`, with each group member's
`need_rebuild` the negation of having all of its files (XOR artifact
included) and `total_rebuild` the group SUM all-reduce of those flags:
when the sum is 0 no rebuild is performed; when the sum exceeds 1 the
operation returns failure after the world-wide all-reduce of
`set_can_rebuild`; when the sum is exactly 1 (and no other group fails)
the rebuild runs rooted at the group MAX of `need_rebuild ? rank : -1`,
which is exactly the rank of the unique member missing its files. -/
theorem scr_attempt_rebuild_xor_detection (haves : List Bool)
    (other_sets_ok : Bool) :
    total_rebuild haves = (haves.filter (fun b => b = false)).length ∧
    (total_rebuild haves = 0 →
      ∀ r, scr_attempt_rebuild_xor haves other_sets_ok ≠ .rebuild r) ∧
    (1 < total_rebuild haves →
      scr_attempt_rebuild_xor haves other_sets_ok = .fail) ∧
    (total_rebuild haves = 1 →
      (other_sets_ok = true →
        scr_attempt_rebuild_xor haves other_sets_ok =
          .rebuild (rebuild_rank haves)) ∧
      ∀ j : Fin haves.length, haves.get j = false →
        rebuild_rank haves = (j : Int)) := by
  refine ⟨?_, ?_, ?_, ?_⟩
  · induction haves with
    | nil => rfl
    | cons b rest ih =>
      rw [total_rebuild_cons, ih]
      cases b <;> simp [need_rebuild] <;> omega
  · intro h0 r
    unfold scr_attempt_rebuild_xor
    rw [h0]
    by_cases hok : other_sets_ok = true
    · simp [hok]
    · simp [hok]
  · intro h1
    unfold scr_attempt_rebuild_xor
    have hcan : ¬ (total_rebuild haves ≤ 1 ∧ other_sets_ok = true) := by
      rintro ⟨hle, _⟩
      omega
    simp [hcan]
  · intro h1
    constructor
    · intro hok
      unfold scr_attempt_rebuild_xor
      rw [h1]
      simp [hok]
    · intro j hget
      unfold rebuild_rank
      have := rebuild_rank_from_unique haves 0 j.1 j.2 le_rfl hget h1
      rw [this]
      simp

/-- Witness for C1 in a group of three members where only rank 1 lacks its
files and every other group can rebuild: the sum is 1 and the rebuild is
rooted at rank 1. -/
theorem scr_attempt_rebuild_xor_detection_witness :
    total_rebuild [true, false, true] = 1 ∧
    scr_attempt_rebuild_xor [true, false, true] true = .rebuild 1 := by
  have h := (scr_attempt_rebuild_xor_detection [true, false, true] true).2.2.2
    (by decide)
  have hrank : rebuild_rank [true, false, true] = 1 := by
    have := h.2 ⟨1, by decide⟩ (by decide)
    simpa using this
  refine ⟨by decide, ?_⟩
  rw [h.1 rfl, hrank]

/-- C3 counterexample: `scr_bool_have_file` accepts a file whose sidecar
`filename` field names a different file (and whose `filetype` is `XOR`
rather than `FULL`): the claim that all six scalar sidecar fields must
match runtime expectations fails, because the code never compares the
`filename` and `filetype` fields. -/
theorem scr_bool_have_file_filename_unchecked :
    scr_bool_have_file "f.dat"
      ⟨true, 100, some ⟨some "other.dat", some .XOR, some 100,
        some 5, some 2, some 8, some true⟩⟩ 5 2 8 = true ∧
    (some "other.dat" : Option String) ≠ some "f.dat" := by
  decide

/-- C3 (amended): `scr_bool_have_file` returns true only if the file name is
non-empty, the file is readable, the sidecar can be read, its `complete`
flag is true, its `checkpoint_id`, `rank` and `ranks_total` fields match the
runtime expectations, and the measured on-disk size equals the sidecar's
`filesize`; the sidecar's `filename` and `filetype` fields are not
checked. -/
theorem scr_bool_have_file_checked_fields (file : String) (info : FileView)
    (ckpt rank ranks : Int)
    (h : scr_bool_have_file file info ckpt rank ranks = true) :
    file ≠ "" ∧ info.readable = true ∧
    ∃ m, info.meta = some m ∧ m.complete = some true ∧
      m.checkpoint_id = some ckpt ∧ m.rank = some rank ∧
      m.ranks = some ranks ∧ m.filesize = some info.size := by
  unfold scr_bool_have_file at h
  repeat' split at h
  all_goals simp_all

/-- Witness for the amended C3 at a fully matching file. -/
theorem scr_bool_have_file_checked_fields_witness :
    ∃ m, (some (⟨some "f.dat", some .FULL, some 7, some 3, some 1, some 4,
        some true⟩ : scr_meta) : Option scr_meta) = some m ∧
      m.complete = some true ∧ m.checkpoint_id = some 3 ∧
      m.rank = some 1 ∧ m.ranks = some 4 ∧ m.filesize = some 7 :=
  (scr_bool_have_file_checked_fields "f.dat"
    ⟨true, 7, some ⟨some "f.dat", some .FULL, some 7, some 3, some 1, some 4,
      some true⟩⟩ 3 1 4 (by decide)).2.2

lemma dvd_of_tmod_eq_zero {a n : Int} (h : Int.tmod a n = 0) : n ∣ a := by
  have h2 := Int.tdiv_add_tmod a n
  rw [h, add_zero] at h2
  exact ⟨a.tdiv n, h2.symm⟩

lemma tmod_eq_zero_of_dvd {a n : Int} (h : n ∣ a) : Int.tmod a n = 0 := by
  obtain ⟨c, rfl⟩ := h
  exact Int.mul_tmod_right n c

lemma spec_none {checkpoint_id : Int} :
    ∀ {l : List scr_ckptdesc},
      scr_ckptdesc_get_spec checkpoint_id l = none →
      ∀ x ∈ l, ¬ (x.enabled = true ∧ x.interval ∣ checkpoint_id) := by
  intro l
  induction l with
  | nil => intro _ x hx; cases hx
  | cons k rest ih =>
    intro h x hx
    simp only [scr_ckptdesc_get_spec] at h
    by_cases hc : k.enabled = true ∧ k.interval ∣ checkpoint_id
    · rw [if_pos hc] at h
      cases hr : scr_ckptdesc_get_spec checkpoint_id rest with
      | none => rw [hr] at h; cases h
      | some m' =>
        rw [hr] at h
        dsimp only at h
        by_cases hle : m'.interval ≤ k.interval
        · rw [if_pos hle] at h; cases h
        · rw [if_neg hle] at h; cases h
    · rw [if_neg hc] at h
      rcases List.mem_cons.mp hx with rfl | hx
      · exact hc
      · exact ih h x hx

lemma spec_some_mem {checkpoint_id : Int} :
    ∀ {l : List scr_ckptdesc} {m : scr_ckptdesc},
      scr_ckptdesc_get_spec checkpoint_id l = some m →
      m ∈ l ∧ m.enabled = true ∧ m.interval ∣ checkpoint_id := by
  intro l
  induction l with
  | nil => intro m h; cases h
  | cons k rest ih =>
    intro m h
    simp only [scr_ckptdesc_get_spec] at h
    by_cases hc : k.enabled = true ∧ k.interval ∣ checkpoint_id
    · rw [if_pos hc] at h
      cases hr : scr_ckptdesc_get_spec checkpoint_id rest with
      | none =>
        rw [hr] at h
        cases h
        exact ⟨List.mem_cons_self _ _, hc.1, hc.2⟩
      | some m' =>
        rw [hr] at h
        dsimp only at h
        by_cases hle : m'.interval ≤ k.interval
        · rw [if_pos hle] at h
          cases h
          exact ⟨List.mem_cons_self _ _, hc.1, hc.2⟩
        · rw [if_neg hle] at h
          cases h
          obtain ⟨hmem, he, hd⟩ := ih hr
          exact ⟨List.mem_cons_of_mem _ hmem, he, hd⟩
    · rw [if_neg hc] at h
      obtain ⟨hmem, he, hd⟩ := ih h
      exact ⟨List.mem_cons_of_mem _ hmem, he, hd⟩

lemma spec_some_max {checkpoint_id : Int} :
    ∀ {l : List scr_ckptdesc} {m : scr_ckptdesc},
      scr_ckptdesc_get_spec checkpoint_id l = some m →
      ∀ x ∈ l, x.enabled = true → x.interval ∣ checkpoint_id →
        x.interval ≤ m.interval := by
  intro l
  induction l with
  | nil => intro m h; cases h
  | cons k rest ih =>
    intro m h x hx hxe hxd
    simp only [scr_ckptdesc_get_spec] at h
    by_cases hc : k.enabled = true ∧ k.interval ∣ checkpoint_id
    · rw [if_pos hc] at h
      cases hr : scr_ckptdesc_get_spec checkpoint_id rest with
      | none =>
        rw [hr] at h
        cases h
        rcases List.mem_cons.mp hx with rfl | hx
        · exact le_rfl
        · exact absurd ⟨hxe, hxd⟩ (spec_none hr x hx)
      | some m' =>
        rw [hr] at h
        dsimp only at h
        by_cases hle : m'.interval ≤ k.interval
        · rw [if_pos hle] at h
          cases h
          rcases List.mem_cons.mp hx with rfl | hx
          · exact le_rfl
          · exact le_trans (ih hr x hx hxe hxd) hle
        · rw [if_neg hle] at h
          cases h
          rcases List.mem_cons.mp hx with rfl | hx
          · omega
          · exact ih hr x hx hxe hxd
    · rw [if_neg hc] at h
      rcases List.mem_cons.mp hx with rfl | hx
      · exact absurd ⟨hxe, hxd⟩ hc
      · exact ih h x hx hxe hxd

lemma spec_some_first {checkpoint_id : Int} :
    ∀ {l : List scr_ckptdesc} {m : scr_ckptdesc},
      scr_ckptdesc_get_spec checkpoint_id l = some m →
      ∃ l1 l2, l = l1 ++ m :: l2 ∧
        ∀ x ∈ l1, x.enabled = true → x.interval ∣ checkpoint_id →
          x.interval < m.interval := by
  intro l
  induction l with
  | nil => intro m h; cases h
  | cons k rest ih =>
    intro m h
    simp only [scr_ckptdesc_get_spec] at h
    by_cases hc : k.enabled = true ∧ k.interval ∣ checkpoint_id
    · rw [if_pos hc] at h
      cases hr : scr_ckptdesc_get_spec checkpoint_id rest with
      | none =>
        rw [hr] at h
        cases h
        exact ⟨[], rest, rfl, by intro x hx; cases hx⟩
      | some m' =>
        rw [hr] at h
        dsimp only at h
        by_cases hle : m'.interval ≤ k.interval
        · rw [if_pos hle] at h
          cases h
          exact ⟨[], rest, rfl, by intro x hx; cases hx⟩
        · rw [if_neg hle] at h
          cases h
          obtain ⟨l1, l2, heq, hlt⟩ := ih hr
          refine ⟨k :: l1, l2, by rw [heq]; rfl, ?_⟩
          intro x hx hxe hxd
          rcases List.mem_cons.mp hx with rfl | hx
          · omega
          · exact hlt x hx hxe hxd
    · rw [if_neg hc] at h
      obtain ⟨l1, l2, heq, hlt⟩ := ih h
      refine ⟨k :: l1, l2, by rw [heq]; rfl, ?_⟩
      intro x hx hxe hxd
      rcases List.mem_cons.mp hx with rfl | hx
      · exact absurd ⟨hxe, hxd⟩ hc
      · exact hlt x hx hxe hxd

lemma scr_ckptdesc_get_loop_eq (checkpoint_id : Int) :
    ∀ (l : List scr_ckptdesc) (c : Option scr_ckptdesc) (interval : Int),
      (∀ k ∈ l, 1 ≤ k.interval) → (c = none → interval = 0) →
      scr_ckptdesc_get_loop checkpoint_id c interval l =
        match scr_ckptdesc_get_spec checkpoint_id l with
        | none => c
        | some m => if interval < m.interval then some m else c := by
  intro l
  induction l with
  | nil => intro c interval _ _; rfl
  | cons k rest ih =>
    intro c interval hpos hc0
    have hpos' : ∀ x ∈ rest, 1 ≤ x.interval :=
      fun x hx => hpos x (List.mem_cons_of_mem _ hx)
    have hkpos : 1 ≤ k.interval := hpos k (List.mem_cons_self _ _)
    simp only [scr_ckptdesc_get_loop, scr_ckptdesc_get_spec]
    by_cases hck : k.enabled = true ∧ k.interval ∣ checkpoint_id
    · have htmod : Int.tmod checkpoint_id k.interval = 0 :=
        tmod_eq_zero_of_dvd hck.2
      rw [if_pos hck]
      by_cases hint : interval < k.interval
      · rw [if_pos ⟨hck.1, hint, htmod⟩,
          ih (some k) k.interval hpos' (by intro hcontra; cases hcontra)]
        cases hr : scr_ckptdesc_get_spec checkpoint_id rest with
        | none => simp [hint]
        | some m' =>
          dsimp only
          by_cases hle : m'.interval ≤ k.interval
          · rw [if_pos hle]
            have : ¬ k.interval < m'.interval := not_lt.mpr hle
            simp [this, hint]
          · rw [if_neg hle]
            have h1 : k.interval < m'.interval := not_le.mp hle
            have h2 : interval < m'.interval := lt_trans hint h1
            simp [h1, h2]
      · have hcond : ¬ (k.enabled = true ∧ interval < k.interval ∧
            Int.tmod checkpoint_id k.interval = 0) := by
          rintro ⟨_, hlt, _⟩
          exact hint hlt
        rw [if_neg hcond, ih c interval hpos' hc0]
        have hige : k.interval ≤ interval := not_lt.mp hint
        cases hr : scr_ckptdesc_get_spec checkpoint_id rest with
        | none => simp [hint]
        | some m' =>
          dsimp only
          by_cases hle : m'.interval ≤ k.interval
          · rw [if_pos hle]
            have : ¬ interval < m'.interval := not_lt.mpr (le_trans hle hige)
            simp [this, hint]
          · rw [if_neg hle]
    · have hcond : ¬ (k.enabled = true ∧ interval < k.interval ∧
          Int.tmod checkpoint_id k.interval = 0) := by
        rintro ⟨he, _, ht⟩
        exact hck ⟨he, dvd_of_tmod_eq_zero ht⟩
      rw [if_neg hcond, if_neg hck, ih c interval hpos' hc0]

/-- C4: for every checkpoint id and every descriptor list whose intervals
are positive (as produced by configuration with the default of 1),
`scr_ckptdesc_get` selects exactly as the spec states: it returns the
enabled descriptor with the largest interval dividing the id evenly, and
between two enabled dividing descriptors of equal interval the one earlier
in array (insertion) order; it returns `none` exactly when no enabled
descriptor's interval divides the id. -/
theorem scr_ckptdesc_get_selects_largest (checkpoint_id : Int)
    (ckpts : List scr_ckptdesc) (hpos : ∀ k ∈ ckpts, 1 ≤ k.interval) :
    scr_ckptdesc_get checkpoint_id ckpts =
      scr_ckptdesc_get_spec checkpoint_id ckpts ∧
    (∀ m, scr_ckptdesc_get checkpoint_id ckpts = some m →
      m.enabled = true ∧ m.interval ∣ checkpoint_id ∧
      (∀ k ∈ ckpts, k.enabled = true → k.interval ∣ checkpoint_id →
        k.interval ≤ m.interval) ∧
      ∃ l1 l2, ckpts = l1 ++ m :: l2 ∧
        ∀ k ∈ l1, k.enabled = true → k.interval ∣ checkpoint_id →
          k.interval < m.interval) ∧
    (scr_ckptdesc_get checkpoint_id ckpts = none →
      ∀ k ∈ ckpts, ¬ (k.enabled = true ∧ k.interval ∣ checkpoint_id)) := by
  have heq : scr_ckptdesc_get checkpoint_id ckpts =
      scr_ckptdesc_get_spec checkpoint_id ckpts := by
    rw [scr_ckptdesc_get,
      scr_ckptdesc_get_loop_eq checkpoint_id ckpts none 0 hpos (fun _ => rfl)]
    cases hr : scr_ckptdesc_get_spec checkpoint_id ckpts with
    | none => rfl
    | some m =>
      obtain ⟨hmem, _, _⟩ := spec_some_mem hr
      have := hpos m hmem
      simp only []
      rw [if_pos (by omega)]
  refine ⟨heq, ?_, ?_⟩
  · intro m hm
    rw [heq] at hm
    obtain ⟨hmem, he, hd⟩ := spec_some_mem hm
    exact ⟨he, hd, spec_some_max hm, spec_some_first hm⟩
  · intro hnone
    rw [heq] at hnone
    exact spec_none hnone

/-- Witness for C4: among three descriptors with intervals 2, 4, 4 (all
enabled and dividing id 8), the interval-4 descriptor earlier in the array
is selected. -/
theorem scr_ckptdesc_get_selects_largest_witness :
    scr_ckptdesc_get 8
      [⟨true, 0, 2, "b", "d0"⟩, ⟨true, 1, 4, "b", "d1"⟩,
       ⟨true, 2, 4, "c", "d2"⟩] =
      some ⟨true, 1, 4, "b", "d1"⟩ := by
  have h := (scr_ckptdesc_get_selects_largest 8
    [⟨true, 0, 2, "b", "d0"⟩, ⟨true, 1, 4, "b", "d1"⟩,
     ⟨true, 2, 4, "c", "d2"⟩] (by decide)).1
  rw [h]
  decide

lemma scr_ckptdesc_get_loop_none (checkpoint_id : Int) :
    ∀ (l : List scr_ckptdesc) (c : Option scr_ckptdesc) (interval : Int),
      (∀ k ∈ l, k.enabled = true → ¬ (k.interval ∣ checkpoint_id)) →
      scr_ckptdesc_get_loop checkpoint_id c interval l = c := by
  intro l
  induction l with
  | nil => intro c interval _; rfl
  | cons k rest ih =>
    intro c interval hnone
    have hcond : ¬ (k.enabled = true ∧ interval < k.interval ∧
        Int.tmod checkpoint_id k.interval = 0) := by
      rintro ⟨he, _, ht⟩
      exact hnone k (List.mem_cons_self _ _) he (dvd_of_tmod_eq_zero ht)
    simp only [scr_ckptdesc_get_loop]
    rw [if_neg hcond]
    exact ih c interval fun x hx => hnone x (List.mem_cons_of_mem _ hx)

/-- C10: descriptor selection is partial: for every checkpoint id such that
no enabled descriptor's interval divides it evenly (in particular when every
descriptor is disabled), `scr_ckptdesc_get` returns NULL; and
`SCR_Start_checkpoint` dereferences the returned descriptor without a NULL
check (`scr_cachedesc_size(c->base)`), so any state reaching the lookup with
such a descriptor list hits undefined behaviour (`crash`): the precondition
that some enabled descriptor's interval divides every checkpoint id reached
is required for the dereference to be safe. -/
theorem scr_ckptdesc_get_none_start_crashes (checkpoint_id : Int)
    (ckpts : List scr_ckptdesc)
    (hnone : ∀ k ∈ ckpts, k.enabled = true → ¬ (k.interval ∣ checkpoint_id)) :
    scr_ckptdesc_get checkpoint_id ckpts = none ∧
    ∀ s : SCRState, s.enabled = true → s.initialized = true →
      s.in_checkpoint = false → s.checkpoint_id + 1 = checkpoint_id →
      s.ckptdescs = ckpts → (SCR_Start_checkpoint s).1 = .crash := by
  have hget : scr_ckptdesc_get checkpoint_id ckpts = none :=
    scr_ckptdesc_get_loop_none checkpoint_id ckpts none 0 hnone
  refine ⟨hget, ?_⟩
  intro s hen hin hnc hid hdescs
  simp only [SCR_Start_checkpoint, hen, hin, hnc]
  norm_num
  rw [hdescs, hid, hget]

/-- Witness for C10: one enabled descriptor with interval 2 and checkpoint
id 3 (2 does not divide 3): the lookup returns `none` and StartCheckpoint
reaches the NULL dereference. -/
theorem scr_ckptdesc_get_none_start_crashes_witness :
    scr_ckptdesc_get 3 [⟨true, 0, 2, "b", "dir"⟩] = none ∧
    (SCR_Start_checkpoint
      ⟨true, true, false, 2, 0, [⟨true, 0, 2, "b", "dir"⟩], [], [], []⟩).1 =
      .crash := by
  have h := scr_ckptdesc_get_none_start_crashes 3 [⟨true, 0, 2, "b", "dir"⟩]
    (by decide)
  exact ⟨h.1, h.2 _ rfl rfl rfl rfl rfl⟩

/-- C8 counterexample: calling `SCR_Complete_checkpoint` with no checkpoint
in progress, or `SCR_Start_checkpoint` with one already in progress, ends in
`scr_abort` (`MPI_Abort`), not in an `SCR_FAILURE` return: the outcome is
`aborted`, which differs from `failure`. -/
theorem SCR_checkpoint_reentry_not_failure :
    (SCR_Complete_checkpoint ⟨true, true, false, 3, 0, [], [], [], []⟩ true).1 =
      .aborted ∧
    (SCR_Complete_checkpoint ⟨true, true, false, 3, 0, [], [], [], []⟩ true).1 ≠
      .failure ∧
    (SCR_Start_checkpoint ⟨true, true, true, 3, 0, [], [], [], []⟩).1 =
      .aborted ∧
    (SCR_Start_checkpoint ⟨true, true, true, 3, 0, [], [], [], []⟩).1 ≠
      .failure := by
  decide

/-- C8 (amended): calling CompleteCheckpoint while no checkpoint is in
progress is rejected by aborting the job (`scr_abort`/`MPI_Abort`) before any
checkpoint work, leaving the state unchanged — the `return SCR_FAILURE`
following the abort is unreachable; symmetrically, StartCheckpoint while a
checkpoint is already in progress aborts with no work performed. -/
theorem SCR_checkpoint_reentry_aborts (s : SCRState) (copy_ok : Bool)
    (hen : s.enabled = true) (hin : s.initialized = true) :
    (s.in_checkpoint = false →
      SCR_Complete_checkpoint s copy_ok = (.aborted, s)) ∧
    (s.in_checkpoint = true →
      SCR_Start_checkpoint s = (.aborted, s)) := by
  constructor
  · intro hnc
    simp [SCR_Complete_checkpoint, hen, hin, hnc]
  · intro hic
    simp [SCR_Start_checkpoint, hen, hin, hic]

/-- Witness for the amended C8 at a concrete state. -/
theorem SCR_checkpoint_reentry_aborts_witness :
    SCR_Complete_checkpoint ⟨true, true, false, 3, 0, [], [], [], []⟩ true =
      (.aborted, ⟨true, true, false, 3, 0, [], [], [], []⟩) ∧
    SCR_Start_checkpoint ⟨true, true, true, 3, 0, [], [], [], []⟩ =
      (.aborted, ⟨true, true, true, 3, 0, [], [], [], []⟩) :=
  ⟨(SCR_checkpoint_reentry_aborts _ true rfl rfl).1 rfl,
   (SCR_checkpoint_reentry_aborts
     ⟨true, true, true, 3, 0, [], [], [], []⟩ true rfl rfl).2 rfl⟩

/-- C9: when `SCR_Route_file` is called outside an active checkpoint (after
CompleteCheckpoint and before the next StartCheckpoint, as during restart)
it leaves the state — in particular the filemap — unchanged and returns
failure exactly when the routed cache file is not readable; called during an
active checkpoint it adds the routed path to the filemap for
`(scr_checkpoint_id, scr_my_rank_world)`, persists the filemap, and returns
success. -/
theorem SCR_Route_file_checkpoint_phases (s : SCRState) (file newfile : String)
    (hen : s.enabled = true) (hin : s.initialized = true)
    (hroute : scr_route_file s.checkpoint_id s.ckptdescs file = .ok newfile) :
    (s.in_checkpoint = false →
      (SCR_Route_file s file).2.1 = s ∧
      ((SCR_Route_file s file).1 = .failure ↔ ¬ newfile ∈ s.readable) ∧
      ((SCR_Route_file s file).1 = .success ↔ newfile ∈ s.readable)) ∧
    (s.in_checkpoint = true →
      (SCR_Route_file s file).1 = .success ∧
      (s.checkpoint_id, s.my_rank_world, newfile) ∈
        (SCR_Route_file s file).2.1.filemap ∧
      (SCR_Route_file s file).2.1.filemap_disk =
        (SCR_Route_file s file).2.1.filemap) := by
  constructor
  · intro hnc
    simp only [SCR_Route_file, hen, hin, hroute, hnc]
    norm_num
    by_cases hr : newfile ∈ s.readable
    · simp [hr]
    · simp [hr]
  · intro hic
    simp only [SCR_Route_file, hen, hin, hroute, hic]
    norm_num
    unfold scr_filemap_add_file
    by_cases hmem : (s.checkpoint_id, s.my_rank_world, newfile) ∈ s.filemap
    · simp [hmem]
    · simp [hmem]

/-- Witness for C9 at a state inside a checkpoint: the routed file is
recorded in the filemap and the filemap is persisted. -/
theorem SCR_Route_file_checkpoint_phases_witness :
    (SCR_Route_file
      ⟨true, true, true, 2, 0, [⟨true, 0, 1, "b", "/c"⟩], [], [], []⟩
      "x/f.dat").1 = .success ∧
    ((2 : Int), (0 : Int), "/c/checkpoint.2/f.dat") ∈
      (SCR_Route_file
        ⟨true, true, true, 2, 0, [⟨true, 0, 1, "b", "/c"⟩], [], [], []⟩
        "x/f.dat").2.1.filemap := by
  have h := (SCR_Route_file_checkpoint_phases
    ⟨true, true, true, 2, 0, [⟨true, 0, 1, "b", "/c"⟩], [], [], []⟩
    "x/f.dat" "/c/checkpoint.2/f.dat" rfl rfl (by decide)).2 rfl
  exact ⟨h.1, h.2.1⟩

lemma evict_loop_eq (cbase : String) (size : Int) :
    ∀ (l : List CachedCkpt) (n : Int) (fl : Option Int),
      (evict_loop cbase size l n fl).1 =
        (nonflushing_base_ids cbase l).take (n + 1 - size).toNat ∧
      (evict_loop cbase size l n fl).2.1 =
        n - ((evict_loop cbase size l n fl).1).length ∧
      (size ≤ (evict_loop cbase size l n fl).2.1 →
        (evict_loop cbase size l n fl).2.2 =
          (match fl with
           | some f => some f
           | none => (flushing_base_ids cbase l).head?)) := by
  intro l
  induction l with
  | nil =>
    intro n fl
    refine ⟨by simp [evict_loop, nonflushing_base_ids], by simp [evict_loop], ?_⟩
    intro _
    cases fl <;> simp [evict_loop, flushing_base_ids]
  | cons k rest ih =>
    intro n fl
    by_cases hn : n < size
    · have hred : evict_loop cbase size (k :: rest) n fl = ([], n, fl) := by
        simp [evict_loop, hn]
      rw [hred]
      refine ⟨?_, by simp, ?_⟩
      · rw [show (n + 1 - size).toNat = 0 from by omega, List.take_zero]
      · intro hcap
        dsimp only at hcap
        exact absurd hcap (by omega)
    · cases hkb : k.base with
      | none =>
        have hred : evict_loop cbase size (k :: rest) n fl =
            evict_loop cbase size rest n fl := by
          simp [evict_loop, hn, hkb]
        have hnfl : nonflushing_base_ids cbase (k :: rest) =
            nonflushing_base_ids cbase rest := by
          simp [nonflushing_base_ids, List.filter_cons, hkb]
        have hflu : flushing_base_ids cbase (k :: rest) =
            flushing_base_ids cbase rest := by
          simp [flushing_base_ids, List.filter_cons, hkb]
        rw [hred, hnfl, hflu]
        exact ih n fl
      | some b =>
        by_cases hbc : b = cbase
        · cases hkf : k.flushing with
          | false =>
            have hred : evict_loop cbase size (k :: rest) n fl =
                (k.id :: (evict_loop cbase size rest (n - 1) fl).1,
                 (evict_loop cbase size rest (n - 1) fl).2.1,
                 (evict_loop cbase size rest (n - 1) fl).2.2) := by
              simp [evict_loop, hn, hkb, hbc, hkf]
            have hnfl : nonflushing_base_ids cbase (k :: rest) =
                k.id :: nonflushing_base_ids cbase rest := by
              simp [nonflushing_base_ids, List.filter_cons, hkb, hbc, hkf]
            have hflu : flushing_base_ids cbase (k :: rest) =
                flushing_base_ids cbase rest := by
              simp [flushing_base_ids, List.filter_cons, hkb, hbc, hkf]
            obtain ⟨ih1, ih2, ih3⟩ := ih (n - 1) fl
            rw [hred, hnfl, hflu]
            refine ⟨?_, ?_, ?_⟩
            · rw [show (n + 1 - size).toNat = (n - 1 + 1 - size).toNat + 1 from by
                omega]
              rw [List.take_succ_cons, ih1]
            · simp only [List.length_cons]
              omega
            · intro hcap
              exact ih3 hcap
          | true =>
            cases fl with
            | none =>
              have hred : evict_loop cbase size (k :: rest) n none =
                  evict_loop cbase size rest n (some k.id) := by
                simp [evict_loop, hn, hkb, hbc, hkf]
              have hnfl : nonflushing_base_ids cbase (k :: rest) =
                  nonflushing_base_ids cbase rest := by
                simp [nonflushing_base_ids, List.filter_cons, hkb, hbc, hkf]
              have hflu : flushing_base_ids cbase (k :: rest) =
                  k.id :: flushing_base_ids cbase rest := by
                simp [flushing_base_ids, List.filter_cons, hkb, hbc, hkf]
              obtain ⟨ih1, ih2, ih3⟩ := ih n (some k.id)
              rw [hred, hnfl, hflu]
              refine ⟨ih1, ih2, ?_⟩
              intro hcap
              rw [ih3 hcap]
              simp
            | some f =>
              have hred : evict_loop cbase size (k :: rest) n (some f) =
                  evict_loop cbase size rest n (some f) := by
                simp [evict_loop, hn, hkb, hbc, hkf]
              have hnfl : nonflushing_base_ids cbase (k :: rest) =
                  nonflushing_base_ids cbase rest := by
                simp [nonflushing_base_ids, List.filter_cons, hkb, hbc, hkf]
              obtain ⟨ih1, ih2, ih3⟩ := ih n (some f)
              rw [hred, hnfl]
              refine ⟨ih1, ih2, ?_⟩
              intro hcap
              rw [ih3 hcap]
        · have hred : evict_loop cbase size (k :: rest) n fl =
              evict_loop cbase size rest n fl := by
            simp [evict_loop, hn, hkb, hbc]
          have hnfl : nonflushing_base_ids cbase (k :: rest) =
              nonflushing_base_ids cbase rest := by
            simp [nonflushing_base_ids, List.filter_cons, hkb, hbc]
          have hflu : flushing_base_ids cbase (k :: rest) =
              flushing_base_ids cbase rest := by
            simp [flushing_base_ids, List.filter_cons, hkb, hbc]
          rw [hred, hnfl, hflu]
          exact ih n fl

lemma foldl_min_of_le : ∀ (rest : List Int) (x : Int),
    (∀ y ∈ rest, x ≤ y) → rest.foldl min x = x := by
  intro rest
  induction rest with
  | nil => intro x _; rfl
  | cons y ys ih =>
    intro x hx
    simp only [List.foldl_cons]
    rw [min_eq_left (hx y (List.mem_cons_self _ _))]
    exact ih x fun z hz => hx z (List.mem_cons_of_mem _ hz)

lemma flushing_base_ids_pairwise (cbase : String) (ckpts : List CachedCkpt)
    (h : ckpts.Pairwise (fun a b => a.id ≤ b.id)) :
    (flushing_base_ids cbase ckpts).Pairwise (· ≤ ·) := by
  unfold flushing_base_ids
  rw [List.pairwise_map]
  exact h.filter _

lemma oldest_flushing_eq_head (cbase : String) (ckpts : List CachedCkpt)
    (h : ckpts.Pairwise (fun a b => a.id ≤ b.id)) :
    oldest_flushing cbase ckpts = (flushing_base_ids cbase ckpts).head? := by
  have hp := flushing_base_ids_pairwise cbase ckpts h
  unfold oldest_flushing
  cases hys : flushing_base_ids cbase ckpts with
  | nil => rfl
  | cons x rest =>
    rw [hys] at hp
    simp only [List.head?]
    congr 1
    exact foldl_min_of_le rest x (List.pairwise_cons.mp hp).1

/-- C5: for every cache state whose cached-checkpoint list is ordered by
ascending checkpoint id (as `scr_filemap_list_checkpoints` yields it), the
eviction phase of `SCR_Start_checkpoint` behaves as the spec states: when
the count of cached checkpoints at the new checkpoint's base is at least the
base's capacity, checkpoints at that base are evicted in ascending-id order
skipping FLUSHING ones; if the count is still at capacity after that pass
and a flushing checkpoint at the base exists, the call waits on the flush
and then evicts the oldest such flushing checkpoint. -/
theorem SCR_Start_checkpoint_eviction_policy (cbase : String) (size : Int)
    (ckpts : List CachedCkpt)
    (hsorted : ckpts.Pairwise (fun a b => a.id ≤ b.id)) :
    scr_start_checkpoint_evict cbase size ckpts =
      scr_start_checkpoint_evict_spec cbase size ckpts := by
  obtain ⟨h1, h2, h3⟩ :=
    evict_loop_eq cbase size ckpts (count_base cbase ckpts) none
  have hold := oldest_flushing_eq_head cbase ckpts hsorted
  have h3' : size ≤ (evict_loop cbase size ckpts (count_base cbase ckpts) none).2.1 →
      (evict_loop cbase size ckpts (count_base cbase ckpts) none).2.2 =
        oldest_flushing cbase ckpts := by
    intro hcap
    rw [h3 hcap, hold]
  unfold scr_start_checkpoint_evict scr_start_checkpoint_evict_spec
  dsimp only
  by_cases hcap : size ≤ (evict_loop cbase size ckpts (count_base cbase ckpts) none).2.1
  · rw [h3' hcap]
    cases hh : oldest_flushing cbase ckpts with
    | none =>
      dsimp only
      rw [h1]
    | some f =>
      dsimp only
      rw [if_pos hcap, h1, if_pos (by rw [h2, h1] at hcap; exact hcap)]
  · have hcond : ¬ size ≤ count_base cbase ckpts -
        (((nonflushing_base_ids cbase ckpts).take
          (count_base cbase ckpts + 1 - size).toNat).length : Int) := by
      rw [h2, h1] at hcap
      exact hcap
    cases hx : (evict_loop cbase size ckpts (count_base cbase ckpts) none).2.2 with
    | none =>
      dsimp only
      cases hh : oldest_flushing cbase ckpts with
      | none =>
        dsimp only
        rw [h1]
      | some f =>
        dsimp only
        rw [if_neg hcond, h1]
    | some f =>
      dsimp only
      rw [if_neg hcap]
      cases hh : oldest_flushing cbase ckpts with
      | none =>
        dsimp only
        rw [h1]
      | some g =>
        dsimp only
        rw [if_neg hcond, h1]

/-- Witness for C5 with two flushing checkpoints at base "b" and capacity 1:
the skipping pass evicts nothing, the call waits and evicts the oldest
flushing checkpoint (id 1). -/
theorem SCR_Start_checkpoint_eviction_policy_witness :
    scr_start_checkpoint_evict "b" 1
      [⟨1, some "b", true⟩, ⟨2, some "b", true⟩] = ([1], true) := by
  have h := SCR_Start_checkpoint_eviction_policy "b" 1
    [⟨1, some "b", true⟩, ⟨2, some "b", true⟩] (by decide)
  rw [h]
  decide

end SCR
